import Mathlib

/-!
Verification of `dlt_bonus_calculation.py` (DLT recommendation scorer).

Python strings are modelled as `List Char` (the sequence of code points),
Python ints as `Int`/`Nat`, Python lists as `List`, and Python dicts either
as association lists or as total functions with `Option` values.  Fallible
operations return `Option`.  All definitions are computable so that concrete
runs of the modelled code can be checked by `decide`/`rfl`.
-/

namespace DLT

/-- A Python string, modelled as its list of characters. -/
abbrev Str := List Char

/-- `sorted(...)` on integer lists (Python sorts ascending, stably). -/
def pySorted (l : List Int) : List Int := List.insertionSort (· ≤ ·) l

/-! ### Prize table (source lines 46-56)

The Python `PRIZE_TABLE` dict, modelled as a partial map on tier numbers:
`some amount` exactly for the keys 1..9 present in the dict. -/

def PRIZE_TABLE : Nat → Option Nat
  | 1 => some 10000000
  | 2 => some 300000
  | 3 => some 10000
  | 4 => some 3000
  | 5 => some 300
  | 6 => some 200
  | 7 => some 100
  | 8 => some 15
  | 9 => some 5
  | _ => none

/-- `PRIZE_TABLE[t]` read as a plain amount, 0 for absent keys (used only in
spec-side sum statements; the code itself never reads an absent key). -/
def prizeAmount (t : Nat) : Nat := (PRIZE_TABLE t).getD 0

/-! ### PrizeEngine (source lines 253-293, `calculate_prize`) -/

/-- `front_hits = len(set(front) & prize_front_set)` (source line 272). -/
def frontHits (front prizeFront : List Int) : Nat :=
  (front.toFinset ∩ prizeFront.toFinset).card

/-- `back_hits = len(set(back) & prize_back_set)` (source line 273). -/
def backHits (back prizeBack : List Int) : Nat :=
  (back.toFinset ∩ prizeBack.toFinset).card

/-- The `if`/`elif` chain assigning `level` from the hit counts
(source lines 275-285). -/
def levelOfHits (fh bh : Nat) : Option Nat :=
  if fh = 5 ∧ bh = 2 then some 1
  else if fh = 5 ∧ bh = 1 then some 2
  else if fh = 5 ∧ bh = 0 then some 3
  else if fh = 4 ∧ bh = 2 then some 4
  else if fh = 4 ∧ bh = 1 then some 5
  else if fh = 3 ∧ bh = 2 then some 6
  else if fh = 4 ∧ bh = 0 then some 7
  else if fh = 3 ∧ bh = 1 then some 8
  else if (fh = 2 ∧ bh = 2) ∨ (fh = 3 ∧ bh = 0) ∨ (fh = 1 ∧ bh = 2) ∨
          (fh = 2 ∧ bh = 1) ∨ (fh = 0 ∧ bh = 2) then some 9
  else none

/-- The tier the loop body of `calculate_prize` assigns to one ticket. -/
def ticketLevel (front back prizeFront prizeBack : List Int) : Option Nat :=
  levelOfHits (frontHits front prizeFront) (backHits back prizeBack)

/-- `calculate_prize` (source lines 253-293): returns
`(total_prize, breakdown, winning_tickets_details)`.  The breakdown dict
(initialised to 0 on every `PRIZE_TABLE` key, source line 267) is modelled as
a total function `Nat → Nat`; a winner detail record is the pair of the
ticket and its level.  The Python loop accumulates left to right; the
equivalent recursion below combines the head ticket's contribution with the
result for the remaining tickets, which yields the same total and breakdown
and the winners in the same (input) order. -/
def calculate_prize :
    List (List Int × List Int) → List Int → List Int →
      Nat × (Nat → Nat) × List ((List Int × List Int) × Nat)
  | [], _, _ => (0, fun _ => 0, [])
  | (front, back) :: rest, prizeFront, prizeBack =>
    let r := calculate_prize rest prizeFront prizeBack
    match ticketLevel front back prizeFront prizeBack with
    | some lv =>
      match PRIZE_TABLE lv with
      | some amt =>
          (amt + r.1, Function.update r.2.1 lv (r.2.1 lv + 1),
            ((front, back), lv) :: r.2.2)
      | none => r
    | none => r

/-! ### ComplexExpander (source lines 216-251, `generate_complex_tickets`) -/

/-- `itertools.combinations(l, k)`: all length-`k` subsequences of `l`, in
the order itertools enumerates them (indices increasing, lexicographic). -/
def combinationsL {α : Type} : Nat → List α → List (List α)
  | 0, _ => [[]]
  | _ + 1, [] => []
  | k + 1, x :: xs =>
      (combinationsL k xs).map (fun t => x :: t) ++ combinationsL (k + 1) xs

/-- `generate_complex_tickets` (source lines 216-251).  The `math.comb`
product is computed before any ticket is materialised; the
`combinations_count` fallback for old interpreters (lines 235-241) computes
the same binomial coefficients, so a single model covers both paths. -/
def generate_complex_tickets (fronts backs : List Int) :
    List (List Int × List Int) :=
  if fronts.length < 5 ∨ backs.length < 2 then []
  else
    let num_combs := Nat.choose fronts.length 5 * Nat.choose backs.length 2
    if 20000 < num_combs then []
    else
      (combinationsL 5 fronts).flatMap fun f =>
        (combinationsL 2 backs).map fun b => (pySorted f, pySorted b)

/-! ### Python string / int primitives used by the parsing layer -/

/-- `str.strip()` with no argument: remove leading and trailing whitespace. -/
def trimWs (s : Str) : Str :=
  ((s.dropWhile Char.isWhitespace).reverse.dropWhile Char.isWhitespace).reverse

/-- Value of a nonempty all-digit string, else `none`. -/
def digitsNat (ds : Str) : Option Nat :=
  if ds ≠ [] ∧ ds.all Char.isDigit then
    some (ds.foldl (fun a c => 10 * a + (c.toNat - 48)) 0)
  else none

/-- Python `int(s)` on a string: strips surrounding whitespace, accepts an
optional sign followed by digits, raises (here: `none`) otherwise. -/
def pyInt (s : Str) : Option Int :=
  match trimWs s with
  | '+' :: ds => (digitsNat ds).map Int.ofNat
  | '-' :: ds => (digitsNat ds).map fun n => -(Int.ofNat n)
  | ds => (digitsNat ds).map Int.ofNat

/-- `list(map(int, parts))` forced inside `sorted(...)`: all parts must
parse or the whole expression raises (here: `none`). -/
def parseAll : List Str → Option (List Int)
  | [] => some []
  | s :: ss =>
    match pyInt s, parseAll ss with
    | some v, some vs => some (v :: vs)
    | _, _ => none

/-- `str.split()` with no argument: split on whitespace runs, no empties. -/
def pySplitWs (s : Str) : List Str :=
  (s.splitOnP Char.isWhitespace).filter (· ≠ [])

/-! ### DrawRecordStore (source lines 93-133, `get_period_data_from_csv`) -/

/-- `re.match(r'^\d{4,7}$', s)`: the whole string is 4 to 7 digits. -/
def periodPat (s : Str) : Bool :=
  4 ≤ s.length ∧ s.length ≤ 7 ∧ s.all Char.isDigit

/-- Outcome of the per-row body of the CSV loop (source lines 114-124):
a row is accepted, or skipped silently (pattern / length / range checks,
lines 114 and 119-120), or skipped with a logged warning (`ValueError`
from number parsing, lines 123-124). -/
inductive RowOutcome where
  | accepted (period date : Str) (front back : List Int) : RowOutcome
  | skipSilent : RowOutcome
  | skipWarn : RowOutcome
deriving DecidableEq

/-- The per-row body of the CSV loop (source lines 114-124).  A CSV row is the
list of its fields (the `csv.reader` tokenisation is library code outside this
repository). -/
def rowOutcome : List Str → RowOutcome
  | period :: date :: red :: blue :: _ =>
    if periodPat period then
      match parseAll (red.splitOn ','), parseAll (blue.splitOn ',') with
      | some fs, some bs =>
        let front_balls := pySorted fs
        let back_balls := pySorted bs
        if front_balls.length ≠ 5 ∨ ¬ (∀ f ∈ front_balls, 1 ≤ f ∧ f ≤ 35) ∨
            back_balls.length ≠ 2 ∨ ¬ (∀ b ∈ back_balls, 1 ≤ b ∧ b ≤ 12) then
          .skipSilent
        else
          .accepted period date front_balls back_balls
      | _, _ => .skipWarn
    else .skipSilent
  | _ => .skipSilent

/-- `int(p)` used as the sort key for accepted periods (they are all-digit
strings, so plain digit evaluation suffices; line 133). -/
def periodKey (p : Str) : Nat := (digitsNat p).getD 0

/-- The ordering `sorted(periods_list, key=int)` sorts by (Python's `sorted`
is stable, as is the insertion sort used to model it). -/
def periodLe (p q : Str) : Prop := periodKey p ≤ periodKey q

instance : DecidableRel periodLe := fun p q => by
  unfold periodLe; infer_instance

instance : IsTotal Str periodLe := ⟨fun p q => Nat.le_total (periodKey p) (periodKey q)⟩

instance : IsTrans Str periodLe := ⟨fun _ _ _ h h' => Nat.le_trans h h'⟩

/-- The rows accepted by the CSV loop, in input order.  The Python code keys
`period_map` by period (later duplicates overwrite earlier ones) and appends
each accepted period to `periods_list`; the association list below carries the
same insertions in order. -/
def acceptedRows (rows : List (List Str)) : List (Str × Str × List Int × List Int) :=
  rows.filterMap fun row =>
    match rowOutcome row with
    | .accepted p d f b => some (p, d, f, b)
    | _ => none

/-- `get_period_data_from_csv` (source lines 93-133), starting from the
already-tokenised data rows (header removed).  Returns `none` when no row is
accepted (lines 129-131) and otherwise the accepted rows together with
`sorted(periods_list, key=int)` (line 133). -/
def get_period_data_from_csv (rows : List (List Str)) :
    Option (List (Str × Str × List Int × List Int) × List Str) :=
  let acc := acceptedRows rows
  if acc = [] then none
  else some (acc, List.insertionSort periodLe (acc.map fun e => e.1))

/-! ### RecommendationParser (source lines 174-210,
`parse_recommendations_from_report`)

The three regular expressions scan the report text; what the function then
works on are their captured groups.  The scan itself is modelled by handing
the function the list of `(group 1, group 2)` pairs of all matches of the
ticket pattern in text order, and the lists of group-1 captures of all
matches of the two pool patterns in text order (`re.search` uses the first
one; `finditer` uses them all). -/

/-- `parse_recommendations_from_report` (source lines 174-210). -/
def parse_recommendations_from_report (ticketMatches : List (Str × Str))
    (frontPoolMatches backPoolMatches : List Str) :
    List (List Int × List Int) × List Int × List Int :=
  let rec_tickets := ticketMatches.filterMap fun m =>
    match parseAll (pySplitWs m.1), parseAll (pySplitWs m.2) with
    | some fs, some bs =>
      let fronts := pySorted fs
      let backs := pySorted bs
      if fronts.length = 5 ∧ backs.length = 2 then some (fronts, backs) else none
    | _, _ => none
  let complex_fronts :=
    match frontPoolMatches.head? with
    | none => []
    | some g =>
      match parseAll (pySplitWs g) with
      | some vs => pySorted vs
      | none => []
  let complex_backs :=
    match backPoolMatches.head? with
    | none => []
    | some g =>
      match parseAll (pySplitWs g) with
      | some vs => pySorted vs
      | none => []
  (rec_tickets, complex_fronts, complex_backs)

/-! ### ReportLocator (source lines 135-172, `find_matching_report`)

The two extraction steps that involve external machinery are taken as
parameters: `declared content` models
`re.search(r'分析基于数据:\s*截至\s*(\d+)\s*期', content)` returning the
captured period, and `tsOf path` models the filename scan
`re.search(r'_(\d{8}_\d{6})\.txt$', path)` composed with
`datetime.strptime` (so `none` both when the name has no parseable
timestamp and when `strptime` raises).  The directory listing is a list of
`(path, contents)` pairs, `none` standing for a file `robust_file_read`
could not decode. -/

/-- Lexicographic comparison of strings by code point, as Python compares
`str` values (used by `list.sort` on `(timestamp, path)` tuples). -/
def listCharLe : Str → Str → Bool
  | [], _ => true
  | _ :: _, [] => false
  | c :: cs, d :: ds =>
    if c.toNat < d.toNat then true
    else if d.toNat < c.toNat then false
    else listCharLe cs ds

/-- `candidates.sort(reverse=True)` orders `(timestamp, path)` tuples
descending: `a` before `b` iff `a ≥ b` in the tuple order. -/
def candGe (a b : Nat × Str) : Prop :=
  b.1 < a.1 ∨ (a.1 = b.1 ∧ listCharLe b.2 a.2 = true)

instance : DecidableRel candGe := fun a b => by
  unfold candGe; infer_instance

instance : IsTotal (Nat × Str) candGe := by
  constructor
  have tot : ∀ a b : Str, listCharLe a b = true ∨ listCharLe b a = true := by
    intro a
    induction a with
    | nil => intro b; left; rfl
    | cons c cs ih =>
      intro b
      cases b with
      | nil => right; rfl
      | cons d ds =>
        rcases Nat.lt_trichotomy c.toNat d.toNat with h | h | h
        · left; simp [listCharLe, h]
        · rcases ih ds with h' | h' <;> [left; right] <;>
            simp [listCharLe, h, h']
        · right; simp [listCharLe, h, Nat.lt_asymm h]
  intro a b
  rcases Nat.lt_trichotomy a.1 b.1 with h | h | h
  · right; left; exact h
  · rcases tot b.2 a.2 with h' | h'
    · left; right; exact ⟨h, h'⟩
    · right; right; exact ⟨h.symm, h'⟩
  · left; left; exact h

instance : IsTrans (Nat × Str) candGe := by
  constructor
  have tr : ∀ a b c : Str, listCharLe a b = true → listCharLe b c = true →
      listCharLe a c = true := by
    intro a
    induction a with
    | nil => intro b c _ _; rfl
    | cons x xs ih =>
      intro b c hab hbc
      cases b with
      | nil => simp [listCharLe] at hab
      | cons y ys =>
        cases c with
        | nil => simp [listCharLe] at hbc
        | cons z zs =>
          rcases Nat.lt_trichotomy x.toNat y.toNat with hxy | hxy | hxy
          · rcases Nat.lt_trichotomy y.toNat z.toNat with hyz | hyz | hyz
            · simp [listCharLe, Nat.lt_trans hxy hyz]
            · simp [listCharLe, hyz ▸ hxy]
            · simp [listCharLe, hyz, Nat.lt_asymm hyz] at hbc
          · rcases Nat.lt_trichotomy y.toNat z.toNat with hyz | hyz | hyz
            · simp [listCharLe, hxy ▸ hyz]
            · simp only [listCharLe, hxy, hyz, Nat.lt_irrefl, if_false] at hab hbc
              have hxz : x.toNat < z.toNat ↔ False := by
                rw [hxy, hyz]; simp
              simp only [listCharLe, hxz, if_false, hxy, hyz, Nat.lt_irrefl]
              exact ih ys zs hab hbc
            · simp [listCharLe, hyz, Nat.lt_asymm hyz] at hbc
          · simp [listCharLe, hxy, Nat.lt_asymm hxy] at hab
  intro a b c hab hbc
  rcases hab with h | ⟨h, h'⟩ <;> rcases hbc with g | ⟨g, g'⟩
  · exact Or.inl (Nat.lt_trans g h)
  · exact Or.inl (g ▸ h)
  · exact Or.inl (h ▸ g)
  · exact Or.inr ⟨h.trans g, tr _ _ _ g' h'⟩

/-- The `candidates` list built by the scan loop (source lines 146-163), in
directory order: files that decode, whose content declares the target
period, and whose name yields a parseable timestamp. -/
def reportCandidates (declared : Str → Option Str) (tsOf : Str → Option Nat)
    (target : Str) (files : List (Str × Option Str)) : List (Nat × Str) :=
  files.filterMap fun fc =>
    match fc.2 with
    | none => none
    | some content =>
      match declared content with
      | some p => if p = target then (tsOf fc.1).map fun t => (t, fc.1) else none
      | none => none

/-- `find_matching_report` (source lines 135-172): sort the candidates
descending and return the path of the first, or `None` when there is none. -/
def find_matching_report (declared : Str → Option Str) (tsOf : Str → Option Nat)
    (target : Str) (files : List (Str × Option Str)) : Option Str :=
  match (List.insertionSort candGe
      (reportCandidates declared tsOf target files)).head? with
  | none => none
  | some c => some c.2

/-! ### ReportWriter (source lines 307-371, `manage_report`) -/

/-- Python `s.split(sep)` for a nonempty separator string: cut at every
(leftmost, non-overlapping) occurrence of `sep`, keeping empty pieces. -/
def splitOnSub (sep : Str) (l : Str) : List Str :=
  if h : sep ≠ [] ∧ sep.isPrefixOf l then
    [] :: splitOnSub sep (l.drop sep.length)
  else
    match l with
    | [] => [[]]
    | c :: cs =>
      match splitOnSub sep cs with
      | [] => [[c]]
      | t :: ts => (c :: t) :: ts
termination_by l.length
decreasing_by
  · have hpre : sep <+: l := by
      exact (List.isPrefixOf_iff_prefix).1 h.2
    have h1 : 0 < sep.length := List.length_pos.2 h.1
    have h2 : sep.length ≤ l.length := hpre.length_le
    simp only [List.length_drop]
    omega
  · simp [List.length_cons]

def MAX_NORMAL_RECORDS : Nat := 10

def MAX_ERROR_LOGS : Nat := 20

def normalMarker : Str := ("==== 评估记录 ====").data

def errorMarker : Str := ("==== 错误日志 ====").data

/-- `'=' * 20`, the delimiter between evaluation entries. -/
def sep20 : Str := List.replicate 20 '='

/-- Parsing of the existing report content (source lines 319-325):
`parts = content.split(error_marker)`, evaluation entries from
`parts[0].split('='*20)` (stripped, nonempty, not containing the normal
marker), error lines from the line-split of `parts[1]` (stripped,
nonempty). -/
def reportEntriesOf (content : Str) : List Str × List Str :=
  let parts := splitOnSub errorMarker content
  let normal_part := parts.headD []
  let error_part := (parts.drop 1).headD []
  let normal_entries := (splitOnSub sep20 normal_part).filterMap fun e =>
    if trimWs e ≠ [] ∧ ¬ (normalMarker <:+: e) then some (trimWs e) else none
  let error_entries := (error_part.splitOn '\n').filterMap fun e =>
    if trimWs e ≠ [] then some (trimWs e) else none
  (normal_entries, error_entries)

/-- The updated record lists of `manage_report` (source lines 316-358):
parse the old content, prepend the new entry (the text rendered from the
`new_entry` dict at lines 330-351, taken here as given) and the new error
line (timestamp-prefixed, line 354), then truncate to the retention caps
(lines 357-358).  `timestamp` models `datetime.now().strftime(...)`.
Python's `if new_entry:` / `if new_error:` truthiness makes an absent value
and an empty error string both no-ops. -/
def manage_report_state (content timestamp : Str) (newEntry newError : Option Str) :
    List Str × List Str :=
  let parsed := reportEntriesOf content
  let normal_entries :=
    match newEntry with
    | some e => e :: parsed.1
    | none => parsed.1
  let error_entries :=
    match newError with
    | some err =>
      if err ≠ [] then ('[' :: timestamp ++ ']' :: ' ' :: err) :: parsed.2
      else parsed.2
    | none => parsed.2
  (normal_entries.take MAX_NORMAL_RECORDS, error_entries.take MAX_ERROR_LOGS)

/-- The report text written back by `manage_report` (source lines 362-368). -/
def manage_report (content timestamp : Str) (newEntry newError : Option Str) : Str :=
  let s := manage_report_state content timestamp newEntry newError
  let nl : Str := ['\n']
  normalMarker ++ nl ++
    (if s.1 ≠ [] then List.intercalate (nl ++ sep20 ++ nl) s.1 else []) ++
    nl ++ nl ++ errorMarker ++ nl ++
    (if s.2 ≠ [] then List.intercalate nl s.2 else [])

/-! ### Spec-side definitions (written from the specification's words, for
refinement comparisons against the code-derived definitions above) -/

/-- The prize-tier table exactly as the specification states it: a map from
the pair `(front_hits, back_hits)` to the tier, `none` meaning no prize. -/
def claimTier : Nat × Nat → Option Nat
  | (5, 2) => some 1
  | (5, 1) => some 2
  | (5, 0) => some 3
  | (4, 2) => some 4
  | (4, 1) => some 5
  | (3, 2) => some 6
  | (4, 0) => some 7
  | (3, 1) => some 8
  | (2, 2) => some 9
  | (3, 0) => some 9
  | (1, 2) => some 9
  | (2, 1) => some 9
  | (0, 2) => some 9
  | _ => none

/-- The specification's acceptance condition for one discrete-ticket match:
exactly 5 front and exactly 2 back numbers parse as integers. -/
def specTicketMatchOk (m : Str × Str) : Bool :=
  match parseAll (pySplitWs m.1), parseAll (pySplitWs m.2) with
  | some fs, some bs => fs.length = 5 && bs.length = 2
  | _, _ => false

/-- The specification's acceptance condition for one CSV row: at least four
fields, a 4-7 digit period, exactly 5 front integers all in `[1,35]`,
exactly 2 back integers all in `[1,12]`. -/
def specRowOk (row : List Str) : Prop :=
  ∃ p d red blue rest fs bs, row = p :: d :: red :: blue :: rest ∧
    periodPat p = true ∧
    parseAll (red.splitOn ',') = some fs ∧
    parseAll (blue.splitOn ',') = some bs ∧
    fs.length = 5 ∧ (∀ f ∈ fs, 1 ≤ f ∧ f ≤ 35) ∧
    bs.length = 2 ∧ (∀ b ∈ bs, 1 ≤ b ∧ b ≤ 12)

/-- The per-match acceptance function inside
`parse_recommendations_from_report` (source lines 190-195), named for use in
statements; definitionally the function the code folds over the matches. -/
def recAccept (m : Str × Str) : Option (List Int × List Int) :=
  match parseAll (pySplitWs m.1), parseAll (pySplitWs m.2) with
  | some fs, some bs =>
    if (pySorted fs).length = 5 ∧ (pySorted bs).length = 2 then
      some (pySorted fs, pySorted bs)
    else none
  | _, _ => none

/-- The pool extraction applied to the matches of one pool pattern
(source lines 198-207): first match wins, parse failure or absence gives
the empty pool. -/
def poolOf : List Str → List Int
  | [] => []
  | g :: _ =>
    match parseAll (pySplitWs g) with
    | some vs => pySorted vs
    | none => []

/-! ## Helper lemmas -/

theorem levelOfHits_eq_claimTier (fh bh : Nat) :
    levelOfHits fh bh = claimTier (fh, bh) := by
  rcases fh with _ | _ | _ | _ | _ | _ | n <;>
    rcases bh with _ | _ | _ | m <;> rfl

theorem levelOfHits_range {fh bh lv : Nat} (h : levelOfHits fh bh = some lv) :
    1 ≤ lv ∧ lv ≤ 9 := by
  unfold levelOfHits at h
  split_ifs at h <;> simp_all <;> omega

theorem PRIZE_TABLE_eq_amount {lv : Nat} (h1 : 1 ≤ lv) (h2 : lv ≤ 9) :
    PRIZE_TABLE lv = some (prizeAmount lv) := by
  interval_cases lv <;> rfl

theorem calculate_prize_winners (tickets : List (List Int × List Int))
    (pf pb : List Int) :
    (calculate_prize tickets pf pb).2.2 =
      tickets.filterMap fun t =>
        (ticketLevel t.1 t.2 pf pb).map fun lv => (t, lv) := by
  induction tickets with
  | nil => rfl
  | cons t rest ih =>
    obtain ⟨front, back⟩ := t
    simp only [calculate_prize]
    cases h : ticketLevel front back pf pb with
    | none => simpa [List.filterMap_cons, h] using ih
    | some lv =>
      obtain ⟨h1, h2⟩ := levelOfHits_range h
      simp [List.filterMap_cons, h, PRIZE_TABLE_eq_amount h1 h2, ih]

/-! ## Claims -/

/-- Claim C1: for every ticket and winning draw, `calculate_prize` assigns
the ticket exactly the tier the fixed table determines from the pair
`(front_hits, back_hits)` — `(5,2)→1, (5,1)→2, (5,0)→3, (4,2)→4, (4,1)→5,
(3,2)→6, (4,0)→7, (3,1)→8`, the five listed pairs `→9`, every other pair no
prize — and the classification is a total deterministic function of the
pair, each ticket receiving at most one tier (it appears in the winners
detail at most once, with exactly that tier). -/
theorem claim_C1_tier_assignment :
    (∀ fh bh, levelOfHits fh bh = claimTier (fh, bh)) ∧
    (∀ front back prizeFront prizeBack : List Int,
      ticketLevel front back prizeFront prizeBack =
        claimTier (frontHits front prizeFront, backHits back prizeBack)) ∧
    (∀ tickets pf pb,
      (calculate_prize tickets pf pb).2.2 =
        tickets.filterMap fun t =>
          (claimTier (frontHits t.1 pf, backHits t.2 pb)).map fun lv => (t, lv)) := by
  refine ⟨levelOfHits_eq_claimTier, fun _ _ _ _ => levelOfHits_eq_claimTier _ _,
    fun tickets pf pb => ?_⟩
  rw [calculate_prize_winners]
  have : ∀ t : (List Int × List Int),
      ticketLevel t.1 t.2 pf pb = claimTier (frontHits t.1 pf, backHits t.2 pb) :=
    fun t => levelOfHits_eq_claimTier _ _
  exact List.filterMap_congr fun t _ => by rw [this t]

theorem calculate_prize_breakdown (tickets : List (List Int × List Int))
    (pf pb : List Int) (lv : Nat) :
    (calculate_prize tickets pf pb).2.1 lv =
      tickets.countP fun tk => ticketLevel tk.1 tk.2 pf pb == some lv := by
  induction tickets with
  | nil => simp [calculate_prize]
  | cons t rest ih =>
    obtain ⟨front, back⟩ := t
    simp only [calculate_prize]
    cases h : ticketLevel front back pf pb with
    | none => simp [List.countP_cons, h, ih]
    | some k =>
      obtain ⟨h1, h2⟩ := levelOfHits_range h
      by_cases hk : lv = k
      · subst hk
        simp [List.countP_cons, h, PRIZE_TABLE_eq_amount h1 h2, ih,
          Function.update_same]
      · simp [List.countP_cons, h, PRIZE_TABLE_eq_amount h1 h2, ih,
          Function.update_noteq hk, Ne.symm hk]

theorem calculate_prize_total_as_map (tickets : List (List Int × List Int))
    (pf pb : List Int) :
    (calculate_prize tickets pf pb).1 =
      (tickets.map fun tk =>
        match ticketLevel tk.1 tk.2 pf pb with
        | some lv => prizeAmount lv
        | none => 0).sum := by
  induction tickets with
  | nil => rfl
  | cons t rest ih =>
    obtain ⟨front, back⟩ := t
    simp only [calculate_prize]
    cases h : ticketLevel front back pf pb with
    | none => simpa [h] using ih
    | some k =>
      obtain ⟨h1, h2⟩ := levelOfHits_range h
      simp [h, PRIZE_TABLE_eq_amount h1 h2, ih]

theorem sum_update_Icc (bd : Nat → Nat) (w : Nat → Nat) {k : Nat}
    (h1 : 1 ≤ k) (h2 : k ≤ 9) :
    (∑ t ∈ Finset.Icc 1 9, Function.update bd k (bd k + 1) t * w t) =
      (∑ t ∈ Finset.Icc 1 9, bd t * w t) + w k := by
  have hpt : ∀ t ∈ Finset.Icc 1 9,
      Function.update bd k (bd k + 1) t * w t =
        bd t * w t + if t = k then w t else 0 := by
    intro t _
    by_cases htk : t = k
    · subst htk; simp [Function.update_same]; ring
    · simp [Function.update_noteq htk, htk]
  rw [Finset.sum_congr rfl hpt, Finset.sum_add_distrib,
    Finset.sum_ite_eq' (Finset.Icc 1 9) k w]
  simp [Finset.mem_Icc, h1, h2]

theorem calculate_prize_total_sum (tickets : List (List Int × List Int))
    (pf pb : List Int) :
    (calculate_prize tickets pf pb).1 =
      ∑ t ∈ Finset.Icc 1 9,
        (calculate_prize tickets pf pb).2.1 t * prizeAmount t := by
  induction tickets with
  | nil => simp [calculate_prize]
  | cons t rest ih =>
    obtain ⟨front, back⟩ := t
    simp only [calculate_prize]
    cases h : ticketLevel front back pf pb with
    | none => simpa [h] using ih
    | some k =>
      obtain ⟨h1, h2⟩ := levelOfHits_range h
      simp only [h, PRIZE_TABLE_eq_amount h1 h2]
      rw [sum_update_Icc _ _ h1 h2, ih, Nat.add_comm]

theorem calculate_prize_winner_count (tickets : List (List Int × List Int))
    (pf pb : List Int) :
    (calculate_prize tickets pf pb).2.2.length =
      ∑ t ∈ Finset.Icc 1 9, (calculate_prize tickets pf pb).2.1 t := by
  induction tickets with
  | nil => simp [calculate_prize]
  | cons t rest ih =>
    obtain ⟨front, back⟩ := t
    simp only [calculate_prize]
    cases h : ticketLevel front back pf pb with
    | none => simpa [h] using ih
    | some k =>
      obtain ⟨h1, h2⟩ := levelOfHits_range h
      simp only [h, PRIZE_TABLE_eq_amount h1 h2, List.length_cons]
      have hupd := sum_update_Icc ((calculate_prize rest pf pb).2.1)
        (fun _ => 1) h1 h2
      simp only [Nat.mul_one] at hupd
      rw [ih, hupd]

/-- Claim C3: the total prize returned by `calculate_prize` is the sum of
`PRIZE_TABLE[tier]` over all tiered tickets (untiered tickets contribute
zero), with the table `{1:10000000, 2:300000, 3:10000, 4:3000, 5:300,
6:200, 7:100, 8:15, 9:5}`; the breakdown maps every tier 1-9 to the count
of winning tickets of that tier (zero-count tiers included); hence the
total equals `Σ breakdown[t] * PRIZE_TABLE[t]` and the winners detail list
has `Σ breakdown[t]` elements. -/
theorem claim_C3_totals :
    (∀ tickets pf pb,
      (calculate_prize tickets pf pb).1 =
        (tickets.map fun tk =>
          match ticketLevel tk.1 tk.2 pf pb with
          | some lv => prizeAmount lv
          | none => 0).sum ∧
      (∀ lv, (calculate_prize tickets pf pb).2.1 lv =
        tickets.countP fun tk => ticketLevel tk.1 tk.2 pf pb == some lv) ∧
      (calculate_prize tickets pf pb).1 =
        ∑ t ∈ Finset.Icc 1 9,
          (calculate_prize tickets pf pb).2.1 t * prizeAmount t ∧
      (calculate_prize tickets pf pb).2.2.length =
        ∑ t ∈ Finset.Icc 1 9, (calculate_prize tickets pf pb).2.1 t) ∧
    PRIZE_TABLE 1 = some 10000000 ∧ PRIZE_TABLE 2 = some 300000 ∧
    PRIZE_TABLE 3 = some 10000 ∧ PRIZE_TABLE 4 = some 3000 ∧
    PRIZE_TABLE 5 = some 300 ∧ PRIZE_TABLE 6 = some 200 ∧
    PRIZE_TABLE 7 = some 100 ∧ PRIZE_TABLE 8 = some 15 ∧
    PRIZE_TABLE 9 = some 5 := by
  refine ⟨fun tickets pf pb => ⟨calculate_prize_total_as_map tickets pf pb,
    calculate_prize_breakdown tickets pf pb,
    calculate_prize_total_sum tickets pf pb,
    calculate_prize_winner_count tickets pf pb⟩,
    rfl, rfl, rfl, rfl, rfl, rfl, rfl, rfl, rfl⟩

theorem length_combinationsL {α : Type} :
    ∀ (k : Nat) (l : List α),
      (combinationsL k l).length = Nat.choose l.length k := by
  intro k l
  induction l generalizing k with
  | nil => cases k <;> rfl
  | cons x xs ih =>
    cases k with
    | zero => rfl
    | succ k =>
      simp only [combinationsL, List.length_append, List.length_map, ih,
        List.length_cons, Nat.choose_succ_succ]

theorem combinationsL_eq_nil {α : Type} :
    ∀ {k : Nat} {l : List α}, l.length < k → combinationsL k l = [] := by
  intro k l
  induction l generalizing k with
  | nil =>
    cases k with
    | zero => intro h; exact absurd h (Nat.not_lt_zero _)
    | succ k => intro _; rfl
  | cons x xs ih =>
    cases k with
    | zero => intro h; exact absurd h (Nat.not_lt_zero _)
    | succ k =>
      intro h
      have h1 : xs.length < k := by simpa using h
      have h2 : combinationsL (k + 1) xs = [] :=
        ih (Nat.lt_succ_of_lt h1)
      simp [combinationsL, ih h1, h2]

theorem combinationsL_self {α : Type} :
    ∀ {k : Nat} {l : List α}, l.length = k → combinationsL k l = [l] := by
  intro k l
  induction l generalizing k with
  | nil =>
    cases k with
    | zero => intro _; rfl
    | succ k => intro h; simp at h
  | cons x xs ih =>
    cases k with
    | zero => intro h; simp at h
    | succ k =>
      intro h
      have h1 : xs.length = k := by simpa using h
      have h2 : combinationsL (k + 1) xs = [] :=
        combinationsL_eq_nil (by omega)
      simp [combinationsL, ih h1, h2]

theorem mem_combinationsL {α : Type} :
    ∀ {k : Nat} {l l' : List α},
      l' ∈ combinationsL k l ↔ l'.Sublist l ∧ l'.length = k := by
  intro k l
  induction l generalizing k with
  | nil =>
    intro l'
    cases k with
    | zero =>
      simp only [combinationsL, List.mem_singleton, List.sublist_nil]
      constructor
      · rintro rfl; exact ⟨rfl, rfl⟩
      · rintro ⟨rfl, _⟩; rfl
    | succ k =>
      simp only [combinationsL, List.not_mem_nil, false_iff, not_and,
        List.sublist_nil]
      rintro rfl
      simp
  | cons x xs ih =>
    intro l'
    cases k with
    | zero =>
      simp only [combinationsL, List.mem_singleton, List.length_eq_zero]
      constructor
      · rintro rfl; exact ⟨List.nil_sublist _, rfl⟩
      · rintro ⟨_, rfl⟩; rfl
    | succ k =>
      simp only [combinationsL, List.mem_append, List.mem_map, ih]
      constructor
      · rintro (⟨t, ⟨hs, hl⟩, rfl⟩ | ⟨hs, hl⟩)
        · exact ⟨hs.cons₂ x, by simp [hl]⟩
        · exact ⟨hs.cons x, hl⟩
      · rintro ⟨hs, hl⟩
        rcases List.sublist_cons_iff.1 hs with h | ⟨r, rfl, hr⟩
        · exact Or.inr ⟨h, hl⟩
        · exact Or.inl ⟨r, ⟨hr, by simpa using hl⟩, rfl⟩

theorem length_flatMap_map {α β γ : Type} (l : List α) (m : List β)
    (g : α → β → γ) :
    (l.flatMap fun a => m.map (g a)).length = l.length * m.length := by
  induction l with
  | nil => simp
  | cons x xs ih =>
    simp [List.flatMap_cons, ih, Nat.succ_mul, Nat.add_comm]

theorem generate_complex_tickets_eq {fronts backs : List Int}
    (h5 : 5 ≤ fronts.length) (hb2 : 2 ≤ backs.length)
    (hcap : Nat.choose fronts.length 5 * Nat.choose backs.length 2 ≤ 20000) :
    generate_complex_tickets fronts backs =
      (combinationsL 5 fronts).flatMap fun f =>
        (combinationsL 2 backs).map fun b => (pySorted f, pySorted b) := by
  unfold generate_complex_tickets
  rw [if_neg (by omega), if_neg (by omega)]

theorem sorted_pySorted (l : List Int) : (pySorted l).Sorted (· ≤ ·) :=
  List.sorted_insertionSort _ l

theorem length_pySorted (l : List Int) : (pySorted l).length = l.length :=
  (List.perm_insertionSort _ l).length_eq

/-- Claim C2: for pools with at least 5 fronts and 2 backs whose combination
count `C(|fronts|,5) * C(|backs|,2)` is within the 20000 cap,
`generate_complex_tickets` deterministically returns exactly
`C(|fronts|,5) * C(|backs|,2)` tickets, every choice of 5 fronts and 2 backs
occurring (no omission), each ticket sorted ascending; with `|fronts| = 6`,
`|backs| = 3` that is exactly 18 distinct tickets, and with `|fronts| = 5`,
`|backs| = 2` exactly the one ticket made of the sorted input lists. -/
theorem claim_C2_complex_expansion (fronts backs : List Int)
    (h5 : 5 ≤ fronts.length) (hb2 : 2 ≤ backs.length)
    (hcap : Nat.choose fronts.length 5 * Nat.choose backs.length 2 ≤ 20000) :
    (generate_complex_tickets fronts backs).length =
      Nat.choose fronts.length 5 * Nat.choose backs.length 2 ∧
    (∀ p ∈ generate_complex_tickets fronts backs,
      p.1.Sorted (· ≤ ·) ∧ p.2.Sorted (· ≤ ·) ∧
      p.1.length = 5 ∧ p.2.length = 2) ∧
    (∀ f b : List Int, f.Sublist fronts → f.length = 5 → b.Sublist backs →
      b.length = 2 →
      (pySorted f, pySorted b) ∈ generate_complex_tickets fronts backs) ∧
    (fronts.length = 5 → backs.length = 2 →
      generate_complex_tickets fronts backs =
        [(pySorted fronts, pySorted backs)]) ∧
    (generate_complex_tickets [1, 2, 3, 4, 5, 6] [1, 2, 3]).length = 18 ∧
    (generate_complex_tickets [1, 2, 3, 4, 5, 6] [1, 2, 3]).Nodup := by
  rw [generate_complex_tickets_eq h5 hb2 hcap]
  refine ⟨?_, ?_, ?_, ?_, by decide, by decide⟩
  · rw [length_flatMap_map, length_combinationsL, length_combinationsL]
  · intro p hp
    rw [List.mem_flatMap] at hp
    obtain ⟨f, hf, hp⟩ := hp
    rw [List.mem_map] at hp
    obtain ⟨b, hb, rfl⟩ := hp
    obtain ⟨hfs, hfl⟩ := mem_combinationsL.1 hf
    obtain ⟨hbs, hbl⟩ := mem_combinationsL.1 hb
    exact ⟨sorted_pySorted f, sorted_pySorted b,
      (length_pySorted f).trans hfl, (length_pySorted b).trans hbl⟩
  · intro f b hfs hfl hbs hbl
    rw [List.mem_flatMap]
    exact ⟨f, mem_combinationsL.2 ⟨hfs, hfl⟩,
      List.mem_map.2 ⟨b, mem_combinationsL.2 ⟨hbs, hbl⟩, rfl⟩⟩
  · intro hf5 hb2e
    rw [combinationsL_self hf5, combinationsL_self hb2e]
    simp

theorem claim_C2_complex_expansion_witness :
    5 ≤ ([1, 2, 3, 4, 5, 6] : List Int).length ∧
    2 ≤ ([1, 2, 3] : List Int).length ∧
    Nat.choose ([1, 2, 3, 4, 5, 6] : List Int).length 5 *
      Nat.choose ([1, 2, 3] : List Int).length 2 ≤ 20000 ∧
    (generate_complex_tickets [1, 2, 3, 4, 5, 6] [1, 2, 3]).length =
      Nat.choose ([1, 2, 3, 4, 5, 6] : List Int).length 5 *
        Nat.choose ([1, 2, 3] : List Int).length 2 :=
  ⟨by decide, by decide, by decide,
    (claim_C2_complex_expansion [1, 2, 3, 4, 5, 6] [1, 2, 3]
      (by decide) (by decide) (by decide)).1⟩

/-- Claim C4: `generate_complex_tickets` returns the empty list (never a
truncated one) exactly when the front pool has fewer than 5 elements, the
back pool has fewer than 2, or the pre-computed combination count
`C(|fronts|,5) * C(|backs|,2)` exceeds the 20000 cap. -/
theorem claim_C4_empty_iff (fronts backs : List Int) :
    generate_complex_tickets fronts backs = [] ↔
      fronts.length < 5 ∨ backs.length < 2 ∨
        20000 < Nat.choose fronts.length 5 * Nat.choose backs.length 2 := by
  constructor
  · intro h
    by_contra hc
    push_neg at hc
    obtain ⟨h5, hb2, hcap⟩ := hc
    have hlen := congrArg List.length h
    rw [generate_complex_tickets_eq h5 hb2 hcap] at hlen
    rw [length_flatMap_map, length_combinationsL, length_combinationsL] at hlen
    have p1 : 0 < Nat.choose fronts.length 5 := Nat.choose_pos h5
    have p2 : 0 < Nat.choose backs.length 2 := Nat.choose_pos hb2
    simp only [List.length_nil] at hlen
    have := Nat.mul_pos p1 p2
    omega
  · intro h
    by_cases hA : fronts.length < 5 ∨ backs.length < 2
    · simp [generate_complex_tickets, hA]
    · rcases h with h | h | h
      · exact absurd (Or.inl h) hA
      · exact absurd (Or.inr h) hA
      · simp [generate_complex_tickets, hA, h]

theorem mem_pySorted {x : Int} {l : List Int} : x ∈ pySorted l ↔ x ∈ l :=
  (List.perm_insertionSort _ l).mem_iff

theorem rowOutcome_accepted_elim {row : List Str} {p d : Str} {f b : List Int}
    (h : rowOutcome row = .accepted p d f b) :
    specRowOk row ∧ f.Sorted (· ≤ ·) ∧ b.Sorted (· ≤ ·) ∧
      f.length = 5 ∧ b.length = 2 ∧
      (∀ x ∈ f, 1 ≤ x ∧ x ≤ 35) ∧ (∀ x ∈ b, 1 ≤ x ∧ x ≤ 12) := by
  match row with
  | [] => simp [rowOutcome] at h
  | [_] => simp [rowOutcome] at h
  | [_, _] => simp [rowOutcome] at h
  | [_, _, _] => simp [rowOutcome] at h
  | p0 :: d0 :: red :: blue :: rest =>
    simp only [rowOutcome] at h
    by_cases hpat : periodPat p0
    · simp only [hpat, if_true] at h
      rcases hred : parseAll (red.splitOn ',') with _ | fs <;> rw [hred] at h
      · simp at h
      · rcases hblue : parseAll (blue.splitOn ',') with _ | bs <;>
          rw [hblue] at h
        · simp at h
        · simp only at h
          split_ifs at h with hcond
          push_neg at hcond
          obtain ⟨hc1, hc2, hc3, hc4⟩ := hcond
          simp only [RowOutcome.accepted.injEq] at h
          obtain ⟨rfl, rfl, rfl, rfl⟩ := h
          refine ⟨⟨p0, d0, red, blue, rest, fs, bs, rfl, hpat, hred, hblue,
            ?_, ?_, ?_, ?_⟩, sorted_pySorted fs, sorted_pySorted bs,
            hc1, hc3, hc2, hc4⟩
          · rw [← length_pySorted]; exact hc1
          · intro x hx; exact hc2 x (mem_pySorted.2 hx)
          · rw [← length_pySorted]; exact hc3
          · intro x hx; exact hc4 x (mem_pySorted.2 hx)
    · simp [hpat] at h

theorem rowOutcome_accepted_intro {row : List Str} (hok : specRowOk row) :
    ∃ p d f b, rowOutcome row = .accepted p d f b := by
  obtain ⟨p, d, red, blue, rest, fs, bs, rfl, hpat, hred, hblue,
    hl5, hr35, hl2, hr12⟩ := hok
  refine ⟨p, d, pySorted fs, pySorted bs, ?_⟩
  simp only [rowOutcome, hpat, if_true]
  rw [hred, hblue]
  simp only
  rw [if_neg]
  push_neg
  refine ⟨by rw [length_pySorted]; exact hl5,
    fun x hx => hr35 x (mem_pySorted.1 hx),
    by rw [length_pySorted]; exact hl2,
    fun x hx => hr12 x (mem_pySorted.1 hx)⟩

theorem rowOutcome_warn_iff (row : List Str) :
    rowOutcome row = .skipWarn ↔
      ∃ p d red blue rest, row = p :: d :: red :: blue :: rest ∧
        periodPat p = true ∧
        (parseAll (red.splitOn ',') = none ∨
          parseAll (blue.splitOn ',') = none) := by
  constructor
  · intro h
    match row with
    | [] => simp [rowOutcome] at h
    | [_] => simp [rowOutcome] at h
    | [_, _] => simp [rowOutcome] at h
    | [_, _, _] => simp [rowOutcome] at h
    | p0 :: d0 :: red :: blue :: rest =>
      by_cases hpat : periodPat p0
      · refine ⟨p0, d0, red, blue, rest, rfl, hpat, ?_⟩
        simp only [rowOutcome, hpat, if_true] at h
        rcases hred : parseAll (red.splitOn ',') with _ | fs <;> rw [hred] at h
        · exact Or.inl rfl
        · rcases hblue : parseAll (blue.splitOn ',') with _ | bs <;>
            rw [hblue] at h
          · exact Or.inr rfl
          · simp only at h
            split_ifs at h
      · simp [rowOutcome, hpat] at h
  · rintro ⟨p, d, red, blue, rest, rfl, hpat, hbad⟩
    simp only [rowOutcome, hpat, if_true]
    rcases hbad with hbad | hbad
    · rw [hbad]
    · rw [hbad]
      rcases parseAll (red.splitOn ',') with _ | fs <;> rfl

/-- Claim C5 (amended): a CSV row is accepted exactly when it has at least
four fields, its period field is a 4-7 digit string, its front field parses
to exactly 5 integers all in `[1,35]` and its back field to exactly 2
integers all in `[1,12]`; accepted rows are stored with front and back
sorted ascending; a malformed row is skipped — with a recorded warning
exactly when its number fields fail integer parsing (after the period
pattern check), silently otherwise — and does not abort the parsing of any
other row. -/
theorem claim_C5_row_validation :
    (∀ row p d f b, rowOutcome row = RowOutcome.accepted p d f b →
      specRowOk row ∧ f.Sorted (· ≤ ·) ∧ b.Sorted (· ≤ ·) ∧
        f.length = 5 ∧ b.length = 2 ∧
        (∀ x ∈ f, 1 ≤ x ∧ x ≤ 35) ∧ (∀ x ∈ b, 1 ≤ x ∧ x ≤ 12)) ∧
    (∀ row, specRowOk row → ∃ p d f b,
      rowOutcome row = RowOutcome.accepted p d f b) ∧
    (∀ row, rowOutcome row = RowOutcome.skipWarn ↔
      ∃ p d red blue rest, row = p :: d :: red :: blue :: rest ∧
        periodPat p = true ∧
        (parseAll (red.splitOn ',') = none ∨
          parseAll (blue.splitOn ',') = none)) ∧
    (∀ rows1 row rows2, rowOutcome row ≠ RowOutcome.skipWarn →
      rowOutcome row = RowOutcome.skipSilent ∨
        rowOutcome row = RowOutcome.skipWarn →
      acceptedRows (rows1 ++ row :: rows2) =
        acceptedRows (rows1 ++ rows2)) ∧
    (∀ rows1 row rows2, rowOutcome row = RowOutcome.skipWarn →
      acceptedRows (rows1 ++ row :: rows2) =
        acceptedRows (rows1 ++ rows2)) := by
  refine ⟨fun row p d f b h => rowOutcome_accepted_elim h,
    fun row hok => rowOutcome_accepted_intro hok,
    rowOutcome_warn_iff, ?_, ?_⟩
  · intro rows1 row rows2 _ hcase
    simp only [acceptedRows, List.filterMap_append, List.filterMap_cons]
    rcases hcase with h | h <;> rw [h]
  · intro rows1 row rows2 h
    simp only [acceptedRows, List.filterMap_append, List.filterMap_cons, h]

/-- A concrete malformed CSV row (3-digit period, so the claimed acceptance
pattern fails) that the loop skips silently, with no recorded warning:
the claim that every malformed row is skipped with a recorded warning is
false on this input. -/
theorem claim_C5_row_validation_counterexample :
    rowOutcome [("123").data, ("x").data, ("1,2,3,4,5").data, ("6,7").data] =
      RowOutcome.skipSilent ∧
    RowOutcome.skipSilent ≠ RowOutcome.skipWarn := by
  exact ⟨by decide, by decide⟩

theorem claim_C5_row_validation_witness :
    specRowOk [("12345").data, ("x").data, ("3,1,4,2,5").data, ("7,6").data] ∧
    ([1, 2, 3, 4, 5] : List Int).Sorted (· ≤ ·) ∧
    ([6, 7] : List Int).Sorted (· ≤ ·) ∧
    ([1, 2, 3, 4, 5] : List Int).length = 5 ∧
    ([6, 7] : List Int).length = 2 ∧
    (∀ x ∈ ([1, 2, 3, 4, 5] : List Int), 1 ≤ x ∧ x ≤ 35) ∧
    (∀ x ∈ ([6, 7] : List Int), 1 ≤ x ∧ x ≤ 12) :=
  claim_C5_row_validation.1
    [("12345").data, ("x").data, ("3,1,4,2,5").data, ("7,6").data]
    (("12345").data) (("x").data) [1, 2, 3, 4, 5] [6, 7] (by decide)

theorem get_period_data_elim {rows : List (List Str)}
    {store : List (Str × Str × List Int × List Int)} {periods : List Str}
    (h : get_period_data_from_csv rows = some (store, periods)) :
    store = acceptedRows rows ∧
      periods = List.insertionSort periodLe (store.map fun e => e.1) := by
  simp only [get_period_data_from_csv] at h
  split_ifs at h
  simp only [Option.some.injEq, Prod.mk.injEq] at h
  obtain ⟨h1, h2⟩ := h
  subst h1
  exact ⟨rfl, h2.symm⟩

theorem pairwise_periodKey_get {l : List Str} (hp : l.Pairwise periodLe) :
    ∀ (i j : Nat) (hi : i < l.length) (hj : j < l.length),
      periodKey (l.get ⟨i, hi⟩) < periodKey (l.get ⟨j, hj⟩) → i < j := by
  intro i j hi hj hlt
  by_contra hij
  push_neg at hij
  rcases Nat.lt_or_ge j i with hji | hji
  · have h2 : periodLe (l.get ⟨j, hj⟩) (l.get ⟨i, hi⟩) :=
      (List.pairwise_iff_get.1 hp) ⟨j, hj⟩ ⟨i, hi⟩ hji
    have h3 : periodKey (l.get ⟨j, hj⟩) ≤ periodKey (l.get ⟨i, hi⟩) := h2
    omega
  · have hij2 : i = j := by omega
    subst hij2
    exact Nat.lt_irrefl _ hlt

/-- Claim C6 (amended): the period list returned by
`get_period_data_from_csv` is sorted by the numeric value of the period
strings — whenever `p` precedes `q` the numeric value of `p` is at most
that of `q`, and a strictly smaller numeric value always comes strictly
earlier; the list is a permutation of the accepted periods (periods of
equal numeric value, e.g. differently zero-padded spellings, keep their
acceptance order, so strict numeric inequality cannot characterise
precedence for them); on pairwise-distinct numeric values this is exactly
numeric-order sorting, as in sorting ["097","0100","099"] to
["097","099","0100"]. -/
theorem claim_C6_numeric_period_order :
    (∀ rows store periods,
      get_period_data_from_csv rows = some (store, periods) →
      periods.Pairwise periodLe ∧
      (∀ (i j : Nat) (hi : i < periods.length) (hj : j < periods.length),
        periodKey (periods.get ⟨i, hi⟩) < periodKey (periods.get ⟨j, hj⟩) →
          i < j) ∧
      periods.Perm (store.map fun e => e.1)) ∧
    List.insertionSort periodLe
        [("097").data, ("0100").data, ("099").data] =
      [("097").data, ("099").data, ("0100").data] := by
  refine ⟨?_, by decide⟩
  intro rows store periods h
  obtain ⟨hstore, hper⟩ := get_period_data_elim h
  subst hper
  exact ⟨List.sorted_insertionSort periodLe _,
    pairwise_periodKey_get (List.sorted_insertionSort periodLe _),
    List.perm_insertionSort periodLe _⟩

/-- Two CSV rows whose periods "0100" and "00100" have the same numeric
value: "0100" precedes "00100" in the returned period list even though
`int("0100") < int("00100")` is false, refuting the claimed equivalence
between precedence and strict numeric inequality. -/
theorem claim_C6_numeric_period_order_counterexample :
    (get_period_data_from_csv
        [[("0100").data, ("a").data, ("1,2,3,4,5").data, ("6,7").data],
         [("00100").data, ("b").data, ("1,2,3,4,5").data, ("6,7").data]]).map
        (fun r => r.2) =
      some [("0100").data, ("00100").data] ∧
    List.indexOf (("0100").data) [("0100").data, ("00100").data] <
      List.indexOf (("00100").data) [("0100").data, ("00100").data] ∧
    ¬ (periodKey (("0100").data) < periodKey (("00100").data)) := by
  exact ⟨by decide, by decide, by decide⟩

theorem claim_C6_numeric_period_order_witness :
    ([("12345").data, ("54321").data] : List Str).Pairwise periodLe ∧
    (∀ (i j : Nat) (hi : i < ([("12345").data, ("54321").data] : List Str).length)
      (hj : j < ([("12345").data, ("54321").data] : List Str).length),
      periodKey (([("12345").data, ("54321").data] : List Str).get ⟨i, hi⟩) <
        periodKey (([("12345").data, ("54321").data] : List Str).get ⟨j, hj⟩) →
        i < j) ∧
    ([("12345").data, ("54321").data] : List Str).Perm
      (([(("12345").data, ("x").data, ([1, 2, 3, 4, 5] : List Int), ([6, 7] : List Int)),
         (("54321").data, ("y").data, ([1, 2, 3, 4, 5] : List Int), ([6, 7] : List Int))]).map
        fun e => e.1) :=
  (claim_C6_numeric_period_order.1
    [[("12345").data, ("x").data, ("1,2,3,4,5").data, ("6,7").data],
     [("54321").data, ("y").data, ("1,2,3,4,5").data, ("6,7").data]]
    [(("12345").data, ("x").data, [1, 2, 3, 4, 5], [6, 7]),
     (("54321").data, ("y").data, [1, 2, 3, 4, 5], [6, 7])]
    [("12345").data, ("54321").data] (by rfl))

theorem insertionSort_candGe_head {c : List (Nat × Str)} {hd : Nat × Str}
    (h : (List.insertionSort candGe c).head? = some hd) :
    hd ∈ c ∧ ∀ x ∈ c, x.1 ≤ hd.1 := by
  have hperm := List.perm_insertionSort candGe c
  have hsort := List.sorted_insertionSort candGe c
  rcases hs : List.insertionSort candGe c with _ | ⟨a, t⟩
  · rw [hs] at h; simp at h
  · rw [hs] at h hperm hsort
    simp only [List.head?_cons, Option.some.injEq] at h
    refine ⟨hperm.mem_iff.1 (h ▸ List.mem_cons_self a t), ?_⟩
    intro x hx
    rcases List.mem_cons.1 (hperm.mem_iff.2 hx : x ∈ a :: t) with hx1 | hx1
    · exact Nat.le_of_eq (congrArg Prod.fst (hx1.trans h))
    · have hge : candGe a x := (List.pairwise_cons.1 hsort).1 x hx1
      rw [h] at hge
      rcases hge with hlt | ⟨heq, _⟩
      · exact Nat.le_of_lt hlt
      · exact Nat.le_of_eq heq.symm

theorem mem_reportCandidates (declared : Str → Option Str)
    (tsOf : Str → Option Nat) (target : Str)
    (files : List (Str × Option Str)) (t : Nat) (p : Str) :
    (t, p) ∈ reportCandidates declared tsOf target files ↔
      ∃ content, (p, some content) ∈ files ∧
        declared content = some target ∧ tsOf p = some t := by
  simp only [reportCandidates, List.mem_filterMap]
  constructor
  · rintro ⟨⟨p0, c0⟩, hmem, heq⟩
    rcases c0 with _ | content
    · exact absurd heq (by simp)
    · simp only at heq
      rcases hdc : declared content with _ | q <;> rw [hdc] at heq
      · exact absurd heq (by simp)
      · simp only at heq
        by_cases hq : q = target
        · rw [if_pos hq] at heq
          subst hq
          rcases hts : tsOf p0 with _ | t0 <;> rw [hts] at heq
          · exact absurd heq (by simp)
          · simp only [Option.map_some', Option.some.injEq,
              Prod.mk.injEq] at heq
            obtain ⟨rfl, rfl⟩ := heq
            exact ⟨content, hmem, hdc, hts⟩
        · rw [if_neg hq] at heq
          exact absurd heq (by simp)
  · rintro ⟨content, hmem, hdc, hts⟩
    refine ⟨(p, some content), hmem, ?_⟩
    simp [hdc, hts]

/-- Claim C7: `find_matching_report` considers as candidates exactly the
readable files whose content declares the target cutoff period and whose
name yields a parseable timestamp; it returns `None` exactly when no
candidate remains, and otherwise the path of a candidate whose file-name
timestamp is maximal among all candidates. -/
theorem claim_C7_report_selection (declared : Str → Option Str)
    (tsOf : Str → Option Nat) (target : Str)
    (files : List (Str × Option Str)) :
    (∀ t p, (t, p) ∈ reportCandidates declared tsOf target files ↔
      ∃ content, (p, some content) ∈ files ∧
        declared content = some target ∧ tsOf p = some t) ∧
    (find_matching_report declared tsOf target files = none ↔
      reportCandidates declared tsOf target files = []) ∧
    (∀ p, find_matching_report declared tsOf target files = some p →
      ∃ t, (t, p) ∈ reportCandidates declared tsOf target files ∧
        ∀ q ∈ reportCandidates declared tsOf target files, q.1 ≤ t) := by
  refine ⟨fun t p => mem_reportCandidates declared tsOf target files t p,
    ⟨?_, ?_⟩, ?_⟩
  · intro hfind
    rcases hl : List.insertionSort candGe
        (reportCandidates declared tsOf target files) with _ | ⟨a, tl⟩
    · have hlen := (List.perm_insertionSort candGe
        (reportCandidates declared tsOf target files)).length_eq
      rw [hl] at hlen
      exact List.length_eq_zero.1 hlen.symm
    · exfalso
      unfold find_matching_report at hfind
      rw [hl] at hfind
      simp at hfind
  · intro hnil
    unfold find_matching_report
    rw [hnil]
    rfl
  · intro p hp
    unfold find_matching_report at hp
    rcases hs : (List.insertionSort candGe
        (reportCandidates declared tsOf target files)).head? with _ | c <;>
      rw [hs] at hp
    · exact absurd hp (by simp)
    · simp only [Option.some.injEq] at hp
      subst hp
      obtain ⟨hmem, hmax⟩ := insertionSort_candGe_head hs
      exact ⟨c.1, Prod.mk.eta ▸ hmem, hmax⟩

theorem claim_C7_report_selection_witness :
    ∃ t, (t, ("f2").data) ∈ reportCandidates
        (fun c => if c = ("A").data then some (("24001").data) else none)
        (fun p => if p = ("f1").data then some 5
          else if p = ("f2").data then some 9 else none)
        (("24001").data)
        [(("f1").data, some (("A").data)), (("f2").data, some (("A").data)),
          (("f3").data, none)] ∧
      ∀ q ∈ reportCandidates
          (fun c => if c = ("A").data then some (("24001").data) else none)
          (fun p => if p = ("f1").data then some 5
            else if p = ("f2").data then some 9 else none)
          (("24001").data)
          [(("f1").data, some (("A").data)), (("f2").data, some (("A").data)),
            (("f3").data, none)], q.1 ≤ t :=
  (claim_C7_report_selection
    (fun c => if c = ("A").data then some (("24001").data) else none)
    (fun p => if p = ("f1").data then some 5
      else if p = ("f2").data then some 9 else none)
    (("24001").data)
    [(("f1").data, some (("A").data)), (("f2").data, some (("A").data)),
      (("f3").data, none)]).2.2 (("f2").data) (by rfl)

theorem parse_report_fst (ms : List (Str × Str)) (fms bms : List Str) :
    (parse_recommendations_from_report ms fms bms).1 = ms.filterMap recAccept :=
  rfl

theorem parse_report_front_pool (ms : List (Str × Str)) (fms bms : List Str) :
    (parse_recommendations_from_report ms fms bms).2.1 = poolOf fms := by
  rcases fms with _ | ⟨g, rest⟩ <;> rfl

theorem parse_report_back_pool (ms : List (Str × Str)) (fms bms : List Str) :
    (parse_recommendations_from_report ms fms bms).2.2 = poolOf bms := by
  rcases bms with _ | ⟨g, rest⟩ <;> rfl

theorem recAccept_eq_none_iff (m : Str × Str) :
    recAccept m = none ↔ specTicketMatchOk m = false := by
  unfold recAccept specTicketMatchOk
  rcases parseAll (pySplitWs m.1) with _ | fs
  · simp
  · rcases parseAll (pySplitWs m.2) with _ | bs
    · simp
    · simp only [length_pySorted]
      by_cases h5 : fs.length = 5 <;> by_cases h2 : bs.length = 2 <;>
        simp [h5, h2]

theorem poolOf_sorted (gs : List Str) : (poolOf gs).Sorted (· ≤ ·) := by
  rcases gs with _ | ⟨g, rest⟩
  · exact List.sorted_nil
  · simp only [poolOf]
    rcases hp : parseAll (pySplitWs g) with _ | vs
    · exact List.sorted_nil
    · exact sorted_pySorted vs

/-- Claim C8: `parse_recommendations_from_report` turns a ticket match into
a ticket exactly when 5 front and 2 back integers parse (malformed matches
are skipped silently without aborting the surrounding extraction), the
complex pools use only the first matching declaration each (an absent
declaration yields an empty pool), and every returned list is sorted
ascending. -/
theorem claim_C8_report_extraction (ms : List (Str × Str))
    (fms bms : List Str) :
    (∀ t ∈ (parse_recommendations_from_report ms fms bms).1,
      t.1.Sorted (· ≤ ·) ∧ t.2.Sorted (· ≤ ·) ∧
        t.1.length = 5 ∧ t.2.length = 2) ∧
    (∀ ms1 m ms2, specTicketMatchOk m = false →
      (parse_recommendations_from_report (ms1 ++ m :: ms2) fms bms).1 =
        (parse_recommendations_from_report (ms1 ++ ms2) fms bms).1) ∧
    (∀ m : Str × Str,
      (parse_recommendations_from_report [m] fms bms).1 = [] ↔
        specTicketMatchOk m = false) ∧
    (fms = [] → (parse_recommendations_from_report ms fms bms).2.1 = []) ∧
    (bms = [] → (parse_recommendations_from_report ms fms bms).2.2 = []) ∧
    (∀ g rest, (parse_recommendations_from_report ms (g :: rest) bms).2.1 =
      (parse_recommendations_from_report ms [g] bms).2.1) ∧
    (∀ g rest, (parse_recommendations_from_report ms fms (g :: rest)).2.2 =
      (parse_recommendations_from_report ms fms [g]).2.2) ∧
    (parse_recommendations_from_report ms fms bms).2.1.Sorted (· ≤ ·) ∧
    (parse_recommendations_from_report ms fms bms).2.2.Sorted (· ≤ ·) := by
  refine ⟨?_, ?_, ?_, ?_, ?_, fun g rest => by
      rw [parse_report_front_pool, parse_report_front_pool]
      simp only [poolOf],
    fun g rest => by
      rw [parse_report_back_pool, parse_report_back_pool]
      simp only [poolOf],
    by rw [parse_report_front_pool]; exact poolOf_sorted fms,
    by rw [parse_report_back_pool]; exact poolOf_sorted bms⟩
  · intro t ht
    rw [parse_report_fst] at ht
    obtain ⟨m, _, hacc⟩ := List.mem_filterMap.1 ht
    unfold recAccept at hacc
    rcases hf : parseAll (pySplitWs m.1) with _ | fs <;> rw [hf] at hacc
    · exact absurd hacc (by simp)
    · rcases hb : parseAll (pySplitWs m.2) with _ | bs <;> rw [hb] at hacc
      · exact absurd hacc (by simp)
      · simp only at hacc
        split_ifs at hacc with hcond
        simp only [Option.some.injEq] at hacc
        subst hacc
        exact ⟨sorted_pySorted fs, sorted_pySorted bs, hcond.1, hcond.2⟩
  · intro ms1 m ms2 hbad
    rw [parse_report_fst, parse_report_fst]
    rw [List.filterMap_append, List.filterMap_append, List.filterMap_cons,
      (recAccept_eq_none_iff m).2 hbad]
  · intro m
    rw [parse_report_fst]
    simp only [List.filterMap_cons, List.filterMap_nil]
    rcases hacc : recAccept m with _ | t
    · simp [(recAccept_eq_none_iff m).1 hacc]
    · constructor
      · intro hk; exact absurd hk (by simp)
      · intro hk
        rw [← recAccept_eq_none_iff m] at hk
        rw [hk] at hacc
        exact absurd hacc (by simp)
  · rintro rfl; rfl
  · rintro rfl; rfl

theorem claim_C8_report_extraction_witness :
    ([1, 2, 3, 4, 5] : List Int).Sorted (· ≤ ·) ∧
    ([6, 7] : List Int).Sorted (· ≤ ·) ∧
    ([1, 2, 3, 4, 5] : List Int).length = 5 ∧
    ([6, 7] : List Int).length = 2 :=
  (claim_C8_report_extraction
    [(("3 1 2 4 5").data, ("7 6").data)] [] []).1
    ([1, 2, 3, 4, 5], [6, 7]) (by decide)

/-- Claim C9: after any call to `manage_report` — from any prior report
content whatsoever — the retained state holds at most 10 evaluation entries
and at most 20 error lines, the new entry or error (when given) sitting at
position 0 (newest first) and everything beyond each cap discarded; as the
bound holds after every single update from arbitrary prior content, it is
an invariant over any number of successive runs. -/
theorem claim_C9_rolling_report_caps :
    (∀ content timestamp newEntry newError,
      (manage_report_state content timestamp newEntry newError).1.length ≤ 10 ∧
      (manage_report_state content timestamp newEntry newError).2.length ≤ 20) ∧
    (∀ content timestamp e newError,
      (manage_report_state content timestamp (some e) newError).1 =
        (e :: (reportEntriesOf content).1).take MAX_NORMAL_RECORDS ∧
      (manage_report_state content timestamp (some e) newError).1.head? =
        some e) ∧
    (∀ content timestamp newEntry err, err ≠ [] →
      (manage_report_state content timestamp newEntry (some err)).2 =
        (('[' :: timestamp ++ ']' :: ' ' :: err) ::
          (reportEntriesOf content).2).take MAX_ERROR_LOGS ∧
      (manage_report_state content timestamp newEntry (some err)).2.head? =
        some ('[' :: timestamp ++ ']' :: ' ' :: err)) := by
  refine ⟨fun content timestamp newEntry newError =>
    ⟨List.length_take_le _ _, List.length_take_le _ _⟩,
    fun content timestamp e newError => ⟨rfl, rfl⟩,
    fun content timestamp newEntry err herr => ?_⟩
  have hstep : (match (some err : Option Str) with
      | some e =>
        if e ≠ [] then
          ('[' :: timestamp ++ ']' :: ' ' :: e) ::
            (reportEntriesOf content).2
        else (reportEntriesOf content).2
      | none => (reportEntriesOf content).2) =
      ('[' :: timestamp ++ ']' :: ' ' :: err) ::
        (reportEntriesOf content).2 := by
    simp only [if_pos herr]
  constructor
  · show (match (some err : Option Str) with
        | some e =>
          if e ≠ [] then
            ('[' :: timestamp ++ ']' :: ' ' :: e) ::
              (reportEntriesOf content).2
          else (reportEntriesOf content).2
        | none => (reportEntriesOf content).2).take MAX_ERROR_LOGS =
      (('[' :: timestamp ++ ']' :: ' ' :: err) ::
        (reportEntriesOf content).2).take MAX_ERROR_LOGS
    rw [hstep]
  · show ((match (some err : Option Str) with
        | some e =>
          if e ≠ [] then
            ('[' :: timestamp ++ ']' :: ' ' :: e) ::
              (reportEntriesOf content).2
          else (reportEntriesOf content).2
        | none => (reportEntriesOf content).2).take MAX_ERROR_LOGS).head? =
      some ('[' :: timestamp ++ ']' :: ' ' :: err)
    rw [hstep]
    rfl

theorem claim_C9_rolling_report_caps_witness :
    (("x").data ≠ ([] : Str)) ∧
    (manage_report_state [] [] (some (("E").data)) (some (("x").data))).2 =
      (('[' :: ([] : Str) ++ ']' :: ' ' :: ("x").data) ::
        (reportEntriesOf []).2).take MAX_ERROR_LOGS ∧
    (manage_report_state [] [] (some (("E").data)) (some (("x").data))).2.head? =
      some ('[' :: ([] : Str) ++ ']' :: ' ' :: ("x").data) :=
  ⟨by decide,
    (claim_C9_rolling_report_caps.2.2 [] [] (some (("E").data)) (("x").data)
      (by decide)).1,
    (claim_C9_rolling_report_caps.2.2 [] [] (some (("E").data)) (("x").data)
      (by decide)).2⟩

/-- Claim C10: `parse_recommendations_from_report` validates only the
counts 5 and 2, not ranges or distinctness: a report match with front
numbers outside `[1,35]` and duplicated, and back numbers outside `[1,12]`
and duplicated, still yields a ticket, and that ticket flows unvalidated
into `calculate_prize`, which scores it (here: tier 9, 5 units). -/
theorem claim_C10_unvalidated_tickets :
    (parse_recommendations_from_report
        [(("40 40 40 40 2").data, ("13 13").data)] [] []).1 =
      [([2, 40, 40, 40, 40], [13, 13])] ∧
    (∃ t ∈ (parse_recommendations_from_report
        [(("40 40 40 40 2").data, ("13 13").data)] [] []).1,
      (∃ x ∈ t.1, 35 < x) ∧ ¬ t.1.Nodup ∧
      (∃ x ∈ t.2, 12 < x) ∧ ¬ t.2.Nodup) ∧
    (calculate_prize [([2, 40, 40, 40, 40], [13, 13])]
        [2, 40, 31, 32, 33] [13, 1]).1 = 5 ∧
    (calculate_prize [([2, 40, 40, 40, 40], [13, 13])]
        [2, 40, 31, 32, 33] [13, 1]).2.1 9 = 1 ∧
    (calculate_prize [([2, 40, 40, 40, 40], [13, 13])]
        [2, 40, 31, 32, 33] [13, 1]).2.2 =
      [(([2, 40, 40, 40, 40], [13, 13]), 9)] := by
  refine ⟨by decide, by decide, by decide, by decide, by decide⟩

end DLT
